import Mathlib

/-!
Verification of the format-dispatcher module `src/input.rs` of the tokei
repository (the `supported_formats!` macro, `Format::parse`, `Format::print`,
`FromStr for Format`, and `add_input`).

The four serde codecs, the hex crate, and the statistics map type are external
collaborators; they are embedded as opaque parameters (`Codecs`, a type
parameter `M`), except for the hex encoding loop that appears literally in the
source and the hex-decoding contract of the `hex` crate, which are given
executable definitions.  Process termination via `process::exit` inside the
cbor parse arm is made explicit in the result type `ParseOutcome`.

The toml parse arm (line 173) lacks the `?` of the other parse arms, so the
`Ok`-wrapped arm is ill-typed and a build with the `toml-io` feature enabled
does not compile; `Format.parse` therefore contains the three compilable
parse arms, and theorems about `parse` on non-empty input are stated for
configurations that compile (`Buildable`).
-/

/-- Names of the serialization formats declared by the `supported_formats!`
invocation (src/input.rs lines 124-178), in declared order:
cbor, json, yaml, toml. -/
inductive FormatName where
  | cbor
  | json
  | yaml
  | toml
  deriving DecidableEq

/-- Display name of a format, i.e. `stringify!($name)` in the macro. -/
def fmtName : FormatName → String
  | FormatName.cbor => "cbor"
  | FormatName.json => "json"
  | FormatName.yaml => "yaml"
  | FormatName.toml => "toml"

/-- Cargo feature gating each format, from the `supported_formats!` table:
`(cbor, "cbor", Cbor)`, `(json, "json", Json)`, `(yaml, "yaml", Yaml)`,
`(toml, "toml-io", Toml)`.  Note that the toml format is gated on the feature
named `toml-io`, not `toml`. -/
def fmtFeature : FormatName → String
  | FormatName.cbor => "cbor"
  | FormatName.json => "json"
  | FormatName.yaml => "yaml"
  | FormatName.toml => "toml-io"

/-- Position of a format in the declared catalog order. -/
def fmtIdx : FormatName → Nat
  | FormatName.cbor => 0
  | FormatName.json => 1
  | FormatName.yaml => 2
  | FormatName.toml => 3

/-- Build configuration: one boolean per format, true when the cargo feature
gating that format (see `fmtFeature`) is enabled in this build.  The spec
treats the capability set as a pure function of these flags. -/
structure Config where
  cbor : Bool
  json : Bool
  yaml : Bool
  toml : Bool
  deriving DecidableEq

/-- Whether the feature gating format `f` is enabled in configuration `cfg`
(the `#[cfg(feature = $feature)]` tests of the macro expansion). -/
def Config.enabled (cfg : Config) : FormatName → Bool
  | FormatName.cbor => cfg.cbor
  | FormatName.json => cfg.json
  | FormatName.yaml => cfg.yaml
  | FormatName.toml => cfg.toml

/-- Declared catalog, in macro order. -/
def catalog : List FormatName :=
  [FormatName.cbor, FormatName.json, FormatName.yaml, FormatName.toml]

/-- The `Format` enum (src/input.rs lines 19-26): one variant per format, each
variant present only under `#[cfg(feature = ...)]`.  Embedded as the subtype of
catalog entries whose feature is enabled, so that a disabled variant is
unconstructible, mirroring its absence from the Rust enum in that build. -/
abbrev Format (cfg : Config) := { f : FormatName // cfg.enabled f = true }

/-- Format::supported (lines 29-35): names of the formats compiled in, in
declared order. -/
def Format.supported (cfg : Config) : List String :=
  (catalog.filter (fun f => cfg.enabled f)).map fmtName

/-- Format::all (lines 37-41): every catalog name, regardless of features. -/
def Format.all : List String := catalog.map fmtName

/-- Format::not_supported (lines 43-49): names of the formats compiled out, in
declared order. -/
def Format.not_supported (cfg : Config) : List String :=
  (catalog.filter (fun f => ! cfg.enabled f)).map fmtName

/-- Value of one hexadecimal digit (0-9, a-f, A-F). -/
def hexVal (ch : Char) : Option Nat :=
  if ('0' ≤ ch ∧ ch ≤ '9') then some (ch.toNat - Char.toNat '0')
  else if ('a' ≤ ch ∧ ch ≤ 'f') then some (ch.toNat - Char.toNat 'a' + 10)
  else if ('A' ≤ ch ∧ ch ≤ 'F') then some (ch.toNat - Char.toNat 'A' + 10)
  else Option.none

/-- Byte list decoded from consecutive pairs of hex digits; fails on odd
length or a non-hex-digit character. -/
def hexPairs : List Char → Option (List Nat)
  | [] => some []
  | [_] => Option.none
  | a :: b :: rest =>
    match hexVal a, hexVal b, hexPairs rest with
    | some hi, some lo, some bytes => some ((hi * 16 + lo) :: bytes)
    | _, _, _ => Option.none

/-- Decoder of the external `hex` crate (`hex::FromHex::from_hex` for
`Vec<u8>`): the whole input must be an even-length string of hex digits. -/
def hexDecode (s : String) : Option (List Nat) := hexPairs s.data

/-- Single lowercase hexadecimal digit character. -/
def hexDigitChar (n : Nat) : Char :=
  if n < 10 then Char.ofNat (Char.toNat '0' + n)
  else Char.ofNat (Char.toNat 'a' + (n - 10))

/-- Two-digit lowercase hex rendering of a byte, i.e. `format!("{:02x}", byte)`
for a `u8` value (always below 256). -/
def byteToHex (b : Nat) : String :=
  String.mk [hexDigitChar (b / 16 % 16), hexDigitChar (b % 16)]

/-- Hex string built by the cbor print arm (lines 142-150):
`for byte in cbor { s.push_str(&format!("{:02x}", byte)) }`. -/
def hexEncode (bytes : List Nat) : String :=
  bytes.foldl (fun s b => s ++ byteToHex b) ""

/-- The external serde codecs, opaque per the spec codec plugin contract.
`cborDec` models `serde_cbor::from_slice`, `jsonDec` `serde_json::from_str`,
`yamlDec` `serde_yaml::from_str`, `tomlDec` `toml::from_str`; `cborEnc` models
`Languages::to_cbor` (producing bytes), and `jsonEnc`, `yamlEnc`, `tomlEnc`
the corresponding `to_json`, `to_yaml`, `to_toml`.  `M` is the opaque
statistics map type (`LanguageMap` / `Languages`). -/
structure Codecs (M : Type) where
  cborDec : List Nat → Except String M
  jsonDec : String → Except String M
  yamlDec : String → Except String M
  tomlDec : String → Except String M
  cborEnc : M → Except String (List Nat)
  jsonEnc : M → Except String String
  yamlEnc : M → Except String String
  tomlEnc : M → Except String String

/-- Outcome of `Format::parse`.  The Rust function returns
`Option<LanguageMap>`, but the cbor arm calls `process::exit(1)` when hex
decoding fails; the constructor `exit` records that the process terminated
inside `parse` instead of returning. -/
inductive ParseOutcome (M : Type) where
  | ok (map : M)
  | none
  | exit (code : Nat)
  deriving DecidableEq

/-- Cbor arm of `Format::parse` (lines 125-141), gated on feature `cbor`.
`some r` means the arm ends the surrounding `parse` call (a successful decode
returns, a hex failure prints the error description and exits the process);
`Option.none` means `parse` falls through to the next codec, discarding the
`serde_cbor` error (the `if let Ok` at line 65). -/
def cborAttempt {M : Type} (cfg : Config) (c : Codecs M) (input : String) :
    Option (ParseOutcome M) :=
  if cfg.cbor then
    match hexDecode input with
    | Option.none => some (ParseOutcome.exit 1)
    | some bytes =>
      match c.cborDec bytes with
      | Except.ok result => some (ParseOutcome.ok result)
      | Except.error _ => Option.none
  else Option.none

/-- Json arm of `Format::parse` (lines 152-156), gated on feature `json`. -/
def jsonAttempt {M : Type} (cfg : Config) (c : Codecs M) (input : String) :
    Option (ParseOutcome M) :=
  if cfg.json then
    match c.jsonDec input with
    | Except.ok result => some (ParseOutcome.ok result)
    | Except.error _ => Option.none
  else Option.none

/-- Yaml arm of `Format::parse` (lines 161-165), gated on feature `yaml`. -/
def yamlAttempt {M : Type} (cfg : Config) (c : Codecs M) (input : String) :
    Option (ParseOutcome M) :=
  if cfg.yaml then
    match c.yamlDec input with
    | Except.ok result => some (ParseOutcome.ok result)
    | Except.error _ => Option.none
  else Option.none

/-- Proposition: the configuration corresponds to a build of the source that
compiles.  The toml parse arm (line 173) reads `toml::from_str(&input)` with
no `?` — unlike the cbor, json and yaml parse arms (lines 140, 155, 164) and
every print arm including toml's own (line 176).  The macro wraps each parse
arm as `Ok({ ... })` of type `Result<LanguageMap, Box<Error>>` (lines 58-60),
so `Ok(toml::from_str(&input))` is ill-typed (`toml::from_str` returns a
`Result`, not a `LanguageMap`): a build with the `toml-io` feature enabled
does not compile at all.  Every buildable configuration therefore has the
toml flag off, and no compiled `parse` contains a toml arm. -/
def Buildable (cfg : Config) : Prop := cfg.toml = false

/-- Format::parse (lines 51-73): reject empty input, then try each compiled
format in declared order, ending at the first arm that produces a result
(`if let Ok(result) ... return Some(result)`, or the cbor arm exiting);
when every compiled arm falls through, return `None` (line 72).  The toml
arm is absent: it is ill-typed as written (see `Buildable`), so every build
of `parse` that compiles contains exactly the cbor, json and yaml arms,
gated on their features.  Theorems about `parse` on non-empty input carry a
`Buildable` hypothesis restricting them to configurations that compile. -/
def Format.parse {M : Type} (cfg : Config) (c : Codecs M) (input : String) :
    ParseOutcome M :=
  if input = "" then ParseOutcome.none
  else
    match cborAttempt cfg c input with
    | some r => r
    | Option.none =>
      match jsonAttempt cfg c input with
      | some r => r
      | Option.none =>
        match yamlAttempt cfg c input with
        | some r => r
        | Option.none => ParseOutcome.none

/-- Format::print (lines 75-88): dispatch on the variant and run that arm.
The cbor arm hex-encodes the `to_cbor` bytes; the other arms return the
encoder result directly; `?` propagates an encoder error unchanged. -/
def Format.print {M : Type} (cfg : Config) (c : Codecs M) (f : Format cfg)
    (languages : M) : Except String String :=
  match f.val with
  | FormatName.cbor =>
    match c.cborEnc languages with
    | Except.ok bytes => Except.ok (hexEncode bytes)
    | Except.error e => Except.error e
  | FormatName.json => c.jsonEnc languages
  | FormatName.yaml => c.yamlEnc languages
  | FormatName.toml => c.tomlEnc languages

/-- Error message of `from_str` for a known but compiled-out format name: the
`format!` literal at lines 102-112 with `{format}` (i.e. `stringify!($name)`,
the format display name) substituted. -/
def disabledMsg (name : String) : String :=
  "This version of tokei was compiled without any \x27" ++ name ++
  "\x27 serialization support, to enable serialization, reinstall tokei with the features flag.\n\n    cargo install tokei --features " ++
  name ++
  "\n\nIf you want to enable all supported serialization formats, you can use the \x27all\x27 feature.\n\n    cargo install tokei --features all\n"

/-- Rendering of one character inside Rust `Debug` output for a string:
quotes, backslashes, newline, tab and carriage return are escaped; other
printable characters stand for themselves (further control-character escapes
of the Rust formatter are not produced by any string considered here). -/
def rustEscapeChar (ch : Char) : String :=
  if ch = '"' then "\\\""
  else if ch = '\\' then "\\\\"
  else if ch = '\n' then "\\n"
  else if ch = '\t' then "\\t"
  else if ch = '\r' then "\\r"
  else String.singleton ch

/-- Rust `Debug` rendering (`{:?}`) of a string: quoted and escaped. -/
def debugStr (s : String) : String :=
  "\"" ++ String.join (s.data.map rustEscapeChar) ++ "\""

/-- Error message of `from_str` for a name outside the catalog (line 116):
`format!("{:?} is not a supported serialization format", format)`. -/
def unknownMsg (format : String) : String :=
  debugStr format ++ " is not a supported serialization format"

/-- FromStr for Format (lines 91-119): exact match of the argument against the
catalog names in declared order; an enabled match returns the variant, a
disabled match returns the configuration error message, anything else the
unknown-format message.  The error type is `String` in both failure cases. -/
def Format.from_str (cfg : Config) (format : String) :
    Except String (Format cfg) :=
  if format = "cbor" then
    if h : cfg.enabled FormatName.cbor = true then Except.ok ⟨FormatName.cbor, h⟩
    else Except.error (disabledMsg ("cbor"))
  else if format = "json" then
    if h : cfg.enabled FormatName.json = true then Except.ok ⟨FormatName.json, h⟩
    else Except.error (disabledMsg ("json"))
  else if format = "yaml" then
    if h : cfg.enabled FormatName.yaml = true then Except.ok ⟨FormatName.yaml, h⟩
    else Except.error (disabledMsg ("yaml"))
  else if format = "toml" then
    if h : cfg.enabled FormatName.toml = true then Except.ok ⟨FormatName.toml, h⟩
    else Except.error (disabledMsg ("toml"))
  else Except.error (unknownMsg format)

/-- Environment seen by `add_input`: `fileContents input` is `some contents`
when `File::open(input)` succeeds and reading yields `contents` (a read error
after a successful open panics in the source and is not modelled); `stdin` is
what reading standard input yields. -/
structure IoEnv where
  fileContents : String → Option String
  stdin : String

/-- Outcome of `add_input`: either the parsed map merged into the running
aggregate, or process exit, with the exit code and the diagnostic messages
printed by `add_input` itself (the hex error description printed inside the
cbor arm just before its own exit comes from the external hex crate and is
not modelled). -/
inductive AddOutcome (M : Type) where
  | merged (languages : M)
  | exited (code : Nat) (messages : List String)

/-- Input-source selection of `add_input` (lines 185-207): try `File::open`
first and use the file contents when it succeeds; when opening fails, the
literal argument "stdin" selects standard input, and any other unopenable
argument is treated as inline serialized content. -/
def resolveContents (env : IoEnv) (input : String) : String :=
  match env.fileContents input with
  | some contents => contents
  | Option.none => if input = "stdin" then env.stdin else input

/-- convert_input (lines 239-241). -/
def convert_input {M : Type} (cfg : Config) (c : Codecs M) (contents : String) :
    ParseOutcome M :=
  Format.parse cfg c contents

/-- First diagnostic printed by `add_input` when parsing fails (line 212). -/
def errMsg (input : String) : String :=
  "Error:\n Failed to parse input file: " ++ input

/-- Second diagnostic of `add_input`, printed only when at least one format is
compiled out (lines 216-232): the `eprintln!` literal with `{not_supported}`
replaced by the disabled names joined with ", " and `{all:?}` by the Debug
rendering of the full catalog joined with "," (the source comment notes the
missing space after the comma is to ease copy-paste). -/
def notSupportedMsg (cfg : Config) : String :=
  "\nThis version of tokei was compiled without serialization support for the following formats:\n\n    " ++
  String.intercalate (", ") (Format.not_supported cfg) ++
  "\n\nYou may want to install any comma separated combination of " ++
  debugStr (String.intercalate (",") Format.all) ++
  ":\n\n    " ++
  "cargo install tokei --features " ++
  debugStr (String.intercalate (",") Format.all) ++
  "\n\nOr use the \x27all\x27 feature:\n\n    cargo install tokei --features all\n    \n"

/-- add_input (lines 180-237): select the input source, parse it, and either
merge the decoded map into the aggregate (`*languages += map`, modelled by the
`merge` parameter) or print the failure diagnostics and exit with code 1.
A `process::exit` reached inside a parse arm is propagated as-is. -/
def add_input {M : Type} (cfg : Config) (c : Codecs M) (env : IoEnv)
    (input : String) (languages : M) (merge : M → M → M) : AddOutcome M :=
  match convert_input cfg c (resolveContents env input) with
  | ParseOutcome.ok map => AddOutcome.merged (merge languages map)
  | ParseOutcome.exit code => AddOutcome.exited code []
  | ParseOutcome.none =>
    AddOutcome.exited 1
      ([errMsg input] ++
        (if (Format.not_supported cfg).isEmpty then []
         else [notSupportedMsg cfg]))

/-- Whether the character list `p` occurs at the start of `s`. -/
def segStarts : List Char → List Char → Bool
  | [], _ => true
  | _ :: _, [] => false
  | a :: as, b :: bs => a = b && segStarts as bs

/-- Whether the character list `p` occurs contiguously anywhere in `s`. -/
def segIn (p : List Char) : List Char → Bool
  | [] => segStarts p []
  | b :: bs => segStarts p (b :: bs) || segIn p bs

/-- Whether the string `p` occurs as a contiguous substring of `s`. -/
def strContains (p s : String) : Bool := segIn p.data s.data

/-- Proposition: the parse dispatch passes over format `g` on `input` and
continues to the next candidate.  For cbor, json and yaml this means: when
the format is enabled, its decoder returns an error that `parse` swallows
(for cbor only after a successful hex pre-decode, since a hex failure exits
the process rather than falling through).  The toml parse arm has no failing
path at all — line 173 lacks the `?` and the arm is ill-typed (see
`Buildable`) — so the dispatch can pass it only by its being compiled out. -/
def fallsThrough {M : Type} (cfg : Config) (c : Codecs M) :
    FormatName → String → Prop
  | FormatName.cbor, input =>
    cfg.cbor = true →
      ∃ bytes e, hexDecode input = some bytes ∧ c.cborDec bytes = Except.error e
  | FormatName.json, input =>
    cfg.json = true → ∃ e, c.jsonDec input = Except.error e
  | FormatName.yaml, input =>
    cfg.yaml = true → ∃ e, c.yamlDec input = Except.error e
  | FormatName.toml, _ => cfg.toml = false

/-- Proposition: the decoder of format `f` recovers `m` from `input` inside
`parse` (for cbor, via a successful hex pre-decode).  No compiled build
contains a toml decode path in `parse` (see `Buildable`), so the toml case
is `False`. -/
def decOk {M : Type} (c : Codecs M) : FormatName → String → M → Prop
  | FormatName.cbor, input, m =>
    ∃ bytes, hexDecode input = some bytes ∧ c.cborDec bytes = Except.ok m
  | FormatName.json, input, m => c.jsonDec input = Except.ok m
  | FormatName.yaml, input, m => c.yamlDec input = Except.ok m
  | FormatName.toml, _, _ => False

/-- Data of a string append is the append of the data. -/
theorem strData_append (s t : String) : (s ++ t).data = s.data ++ t.data := rfl

/-- Every list starts with itself. -/
theorem segStarts_self (p t : List Char) : segStarts p (p ++ t) = true := by
  induction p with
  | nil => rfl
  | cons a as ih => simp [segStarts, ih]

/-- A list occurs in itself followed by anything. -/
theorem segIn_self (p t : List Char) : segIn p (p ++ t) = true := by
  cases p with
  | nil =>
    cases t with
    | nil => rfl
    | cons b bs => simp [segIn, segStarts]
  | cons a as => simp [segIn, segStarts, segStarts_self]

/-- Occurrence is preserved by prepending. -/
theorem segIn_append (p x r : List Char) (h : segIn p r = true) :
    segIn p (x ++ r) = true := by
  induction x with
  | nil => simpa using h
  | cons b bs ih => simp [segIn, ih]

/-- An appended pair occurs at the front of its own reassociated append. -/
theorem segIn_self_assoc (p q t : List Char) :
    segIn (p ++ q) (p ++ (q ++ t)) = true := by
  have h := segIn_self (p ++ q) t
  rwa [List.append_assoc] at h

/-- Last character of an append with a nonempty right part. -/
theorem lastChar_append (s t : String) (h : t.data ≠ []) :
    (s ++ t).data.getLast? = t.data.getLast? := by
  rw [strData_append]
  exact List.getLast?_append_of_ne_nil _ h

/-- Cbor arm: hex failure makes the arm exit the process. -/
theorem cborAttempt_exit {M : Type} {cfg : Config} {c : Codecs M}
    {input : String} (hcb : cfg.cbor = true)
    (hhex : hexDecode input = Option.none) :
    cborAttempt cfg c input = some (ParseOutcome.exit 1) := by
  simp [cborAttempt, hcb, hhex]

/-- Cbor arm: successful decode returns the map. -/
theorem cborAttempt_ok {M : Type} {cfg : Config} {c : Codecs M}
    {input : String} {m : M} (hcb : cfg.cbor = true)
    (h : decOk c FormatName.cbor input m) :
    cborAttempt cfg c input = some (ParseOutcome.ok m) := by
  obtain ⟨bs, hbs, hd⟩ := h
  simp [cborAttempt, hcb, hbs, hd]

/-- Cbor arm: a disabled or failing cbor codec falls through. -/
theorem cborAttempt_none {M : Type} {cfg : Config} {c : Codecs M}
    {input : String} (h : fallsThrough cfg c FormatName.cbor input) :
    cborAttempt cfg c input = Option.none := by
  cases hcb : cfg.cbor with
  | false => simp [cborAttempt, hcb]
  | true =>
    obtain ⟨bs, e, hbs, hd⟩ := h hcb
    simp [cborAttempt, hcb, hbs, hd]

/-- Json arm: successful decode returns the map. -/
theorem jsonAttempt_ok {M : Type} {cfg : Config} {c : Codecs M}
    {input : String} {m : M} (hj : cfg.json = true)
    (h : decOk c FormatName.json input m) :
    jsonAttempt cfg c input = some (ParseOutcome.ok m) := by
  simp [jsonAttempt, hj, show c.jsonDec input = Except.ok m from h]

/-- Json arm: a disabled or failing json codec falls through. -/
theorem jsonAttempt_none {M : Type} {cfg : Config} {c : Codecs M}
    {input : String} (h : fallsThrough cfg c FormatName.json input) :
    jsonAttempt cfg c input = Option.none := by
  cases hj : cfg.json with
  | false => simp [jsonAttempt, hj]
  | true =>
    obtain ⟨e, hd⟩ := h hj
    simp [jsonAttempt, hj, hd]

/-- Yaml arm: successful decode returns the map. -/
theorem yamlAttempt_ok {M : Type} {cfg : Config} {c : Codecs M}
    {input : String} {m : M} (hy : cfg.yaml = true)
    (h : decOk c FormatName.yaml input m) :
    yamlAttempt cfg c input = some (ParseOutcome.ok m) := by
  simp [yamlAttempt, hy, show c.yamlDec input = Except.ok m from h]

/-- Yaml arm: a disabled or failing yaml codec falls through. -/
theorem yamlAttempt_none {M : Type} {cfg : Config} {c : Codecs M}
    {input : String} (h : fallsThrough cfg c FormatName.yaml input) :
    yamlAttempt cfg c input = Option.none := by
  cases hy : cfg.yaml with
  | false => simp [yamlAttempt, hy]
  | true =>
    obtain ⟨e, hd⟩ := h hy
    simp [yamlAttempt, hy, hd]

/-- Unfolding of `parse` on non-empty input: the ordered chain of arms. -/
theorem parse_unfold {M : Type} (cfg : Config) (c : Codecs M) (input : String)
    (hne : input ≠ "") :
    Format.parse cfg c input =
      (match cborAttempt cfg c input with
      | some r => r
      | Option.none =>
        match jsonAttempt cfg c input with
        | some r => r
        | Option.none =>
          match yamlAttempt cfg c input with
          | some r => r
          | Option.none => ParseOutcome.none) := by
  unfold Format.parse
  rw [if_neg hne]

/-- Cbor arm inversion: an ending arm carries a decoded map, or the exit
produced by a hex failure. -/
theorem cborAttempt_some_inv {M : Type} {cfg : Config} {c : Codecs M}
    {input : String} {r : ParseOutcome M}
    (h : cborAttempt cfg c input = some r) :
    (∃ m, r = ParseOutcome.ok m) ∨
      (r = ParseOutcome.exit 1 ∧ cfg.cbor = true ∧
        hexDecode input = Option.none) := by
  unfold cborAttempt at h
  split at h
  · split at h
    · exact Or.inr ⟨(Option.some.inj h).symm, by assumption, by assumption⟩
    · split at h
      · exact Or.inl ⟨_, (Option.some.inj h).symm⟩
      · exact Option.noConfusion h
  · exact Option.noConfusion h

/-- Json arm inversion: an ending arm carries a decoded map. -/
theorem jsonAttempt_some_inv {M : Type} {cfg : Config} {c : Codecs M}
    {input : String} {r : ParseOutcome M}
    (h : jsonAttempt cfg c input = some r) :
    ∃ m, r = ParseOutcome.ok m ∧ c.jsonDec input = Except.ok m := by
  unfold jsonAttempt at h
  split at h
  · split at h
    · exact ⟨_, (Option.some.inj h).symm, by assumption⟩
    · exact Option.noConfusion h
  · exact Option.noConfusion h

/-- Yaml arm inversion: an ending arm carries a decoded map. -/
theorem yamlAttempt_some_inv {M : Type} {cfg : Config} {c : Codecs M}
    {input : String} {r : ParseOutcome M}
    (h : yamlAttempt cfg c input = some r) :
    ∃ m, r = ParseOutcome.ok m ∧ c.yamlDec input = Except.ok m := by
  unfold yamlAttempt at h
  split at h
  · split at h
    · exact ⟨_, (Option.some.inj h).symm, by assumption⟩
    · exact Option.noConfusion h
  · exact Option.noConfusion h

/-- Parse exits the process when cbor is enabled and the input is not hex. -/
theorem parse_exit_of_hex_fail {M : Type} {cfg : Config} {c : Codecs M}
    {input : String} (hne : input ≠ "") (hcb : cfg.cbor = true)
    (hhex : hexDecode input = Option.none) :
    Format.parse cfg c input = ParseOutcome.exit 1 := by
  rw [parse_unfold cfg c input hne, cborAttempt_exit hcb hhex]

/-- Parse returns the cbor result when the cbor codec succeeds. -/
theorem parse_ok_cbor {M : Type} {cfg : Config} {c : Codecs M}
    {input : String} {m : M} (hne : input ≠ "") (hcb : cfg.cbor = true)
    (hdec : decOk c FormatName.cbor input m) :
    Format.parse cfg c input = ParseOutcome.ok m := by
  rw [parse_unfold cfg c input hne, cborAttempt_ok hcb hdec]

/-- Parse returns the json result when the json codec succeeds and the cbor
arm falls through. -/
theorem parse_ok_json {M : Type} {cfg : Config} {c : Codecs M}
    {input : String} {m : M} (hne : input ≠ "") (hj : cfg.json = true)
    (hdec : decOk c FormatName.json input m)
    (h1 : fallsThrough cfg c FormatName.cbor input) :
    Format.parse cfg c input = ParseOutcome.ok m := by
  rw [parse_unfold cfg c input hne, cborAttempt_none h1, jsonAttempt_ok hj hdec]

/-- Parse returns the yaml result when the yaml codec succeeds and the cbor
and json arms fall through. -/
theorem parse_ok_yaml {M : Type} {cfg : Config} {c : Codecs M}
    {input : String} {m : M} (hne : input ≠ "") (hy : cfg.yaml = true)
    (hdec : decOk c FormatName.yaml input m)
    (h1 : fallsThrough cfg c FormatName.cbor input)
    (h2 : fallsThrough cfg c FormatName.json input) :
    Format.parse cfg c input = ParseOutcome.ok m := by
  rw [parse_unfold cfg c input hne, cborAttempt_none h1, jsonAttempt_none h2,
    yamlAttempt_ok hy hdec]

/-- Parse returns `None` when every compiled arm falls through. -/
theorem parse_none_of_all_fall {M : Type} {cfg : Config} {c : Codecs M}
    {input : String} (hne : input ≠ "")
    (h1 : fallsThrough cfg c FormatName.cbor input)
    (h2 : fallsThrough cfg c FormatName.json input)
    (h3 : fallsThrough cfg c FormatName.yaml input) :
    Format.parse cfg c input = ParseOutcome.none := by
  rw [parse_unfold cfg c input hne, cborAttempt_none h1, jsonAttempt_none h2,
    yamlAttempt_none h3]

/-- Cbor arm inversion: falling through means the arm was disabled or the
cbor decode failed on successfully hex-decoded bytes. -/
theorem cborAttempt_none_inv {M : Type} {cfg : Config} {c : Codecs M}
    {input : String} (h : cborAttempt cfg c input = Option.none) :
    fallsThrough cfg c FormatName.cbor input := by
  unfold cborAttempt at h
  split at h
  · split at h
    · exact Option.noConfusion h
    · split at h
      · exact Option.noConfusion h
      · intro _
        exact ⟨_, _, by assumption, by assumption⟩
  · intro hcb
    exact absurd hcb (by assumption)

/-- Json arm inversion: falling through means disabled or failed decode. -/
theorem jsonAttempt_none_inv {M : Type} {cfg : Config} {c : Codecs M}
    {input : String} (h : jsonAttempt cfg c input = Option.none) :
    fallsThrough cfg c FormatName.json input := by
  unfold jsonAttempt at h
  split at h
  · split at h
    · exact Option.noConfusion h
    · intro _
      exact ⟨_, by assumption⟩
  · intro hj
    exact absurd hj (by assumption)

/-- Yaml arm inversion: falling through means disabled or failed decode. -/
theorem yamlAttempt_none_inv {M : Type} {cfg : Config} {c : Codecs M}
    {input : String} (h : yamlAttempt cfg c input = Option.none) :
    fallsThrough cfg c FormatName.yaml input := by
  unfold yamlAttempt at h
  split at h
  · split at h
    · exact Option.noConfusion h
    · intro _
      exact ⟨_, by assumption⟩
  · intro hy
    exact absurd hy (by assumption)

/-- When an enabled cbor cannot abort on this input, a parse returning `None`
means every compiled arm fell through. -/
theorem parse_none_to_fall {M : Type} {cfg : Config} {c : Codecs M}
    {input : String} (hne : input ≠ "")
    (hnoexit : cfg.cbor = true → (hexDecode input).isSome = true)
    (hp : Format.parse cfg c input = ParseOutcome.none) :
    fallsThrough cfg c FormatName.cbor input ∧
    fallsThrough cfg c FormatName.json input ∧
    fallsThrough cfg c FormatName.yaml input := by
  rw [parse_unfold cfg c input hne] at hp
  cases hca : cborAttempt cfg c input with
  | some r =>
    rw [hca] at hp
    rcases cborAttempt_some_inv hca with ⟨m, rfl⟩ | ⟨rfl, hcb, hhex⟩
    · exact ParseOutcome.noConfusion hp
    · have hx := hnoexit hcb
      rw [hhex] at hx
      exact Bool.noConfusion hx
  | none =>
    have f1 := cborAttempt_none_inv hca
    rw [hca] at hp
    cases hja : jsonAttempt cfg c input with
    | some r =>
      rw [hja] at hp
      obtain ⟨m, rfl, _⟩ := jsonAttempt_some_inv hja
      exact ParseOutcome.noConfusion hp
    | none =>
      have f2 := jsonAttempt_none_inv hja
      rw [hja] at hp
      cases hya : yamlAttempt cfg c input with
      | some r =>
        rw [hya] at hp
        obtain ⟨m, rfl, _⟩ := yamlAttempt_some_inv hya
        exact ParseOutcome.noConfusion hp
      | none =>
        exact ⟨f1, f2, yamlAttempt_none_inv hya⟩

/-- When an enabled cbor cannot abort on this input, parse never exits. -/
theorem parse_no_exit {M : Type} {cfg : Config} {c : Codecs M}
    {input : String} (hne : input ≠ "")
    (hnoexit : cfg.cbor = true → (hexDecode input).isSome = true) (k : Nat) :
    Format.parse cfg c input ≠ ParseOutcome.exit k := by
  intro hp
  rw [parse_unfold cfg c input hne] at hp
  cases hca : cborAttempt cfg c input with
  | some r =>
    rw [hca] at hp
    rcases cborAttempt_some_inv hca with ⟨m, rfl⟩ | ⟨rfl, hcb, hhex⟩
    · exact ParseOutcome.noConfusion hp
    · have hx := hnoexit hcb
      rw [hhex] at hx
      exact Bool.noConfusion hx
  | none =>
    rw [hca] at hp
    cases hja : jsonAttempt cfg c input with
    | some r =>
      rw [hja] at hp
      obtain ⟨m, rfl, _⟩ := jsonAttempt_some_inv hja
      exact ParseOutcome.noConfusion hp
    | none =>
      rw [hja] at hp
      cases hya : yamlAttempt cfg c input with
      | some r =>
        rw [hya] at hp
        obtain ⟨m, rfl, _⟩ := yamlAttempt_some_inv hya
        exact ParseOutcome.noConfusion hp
      | none =>
        rw [hya] at hp
        exact ParseOutcome.noConfusion hp

/-- C3: for every build configuration, `Format::parse` applied to the empty
string returns `None` immediately.  The result is the same for every possible
codec behavior — including codecs that would accept any input, or the cbor arm
that would exit the process on non-hex input — so no codec is invoked: the
`input.is_empty()` short-circuit decides the call alone. -/
theorem parse_empty_none {M : Type} (cfg : Config) (c : Codecs M) :
    Format.parse cfg c "" = ParseOutcome.none := rfl

/-- C4: in every build configuration, `not_supported()` equals `all()` minus
`supported()`; the supported and not-supported name lists are disjoint and
together cover `all()`; and all three lists preserve the declared catalog
order cbor, json, yaml, toml (each is a sublist of the constant `all()`).
All three are pure functions of the configuration, hence constant across
calls within one build. -/
theorem capability_partition (cfg : Config) :
    Format.not_supported cfg =
        Format.all.filter (fun n => ! (Format.supported cfg).contains n) ∧
    (∀ n, n ∈ Format.supported cfg → n ∉ Format.not_supported cfg) ∧
    (∀ n, n ∈ Format.all →
        n ∈ Format.supported cfg ∨ n ∈ Format.not_supported cfg) ∧
    (∀ n, n ∈ Format.supported cfg → n ∈ Format.all) ∧
    (∀ n, n ∈ Format.not_supported cfg → n ∈ Format.all) ∧
    List.Sublist (Format.supported cfg) Format.all ∧
    List.Sublist (Format.not_supported cfg) Format.all ∧
    Format.all = ["cbor", "json", "yaml", "toml"] := by
  obtain ⟨b₁, b₂, b₃, b₄⟩ := cfg
  cases b₁ <;> cases b₂ <;> cases b₃ <;> cases b₄ <;> decide

/-- C4 witness: the partition theorem applied to the build with cbor and yaml
enabled, at the member "cbor". -/
theorem capability_partition_witness :
    "cbor" ∈ Format.supported ⟨true, false, true, false⟩ ∧
    "cbor" ∉ Format.not_supported ⟨true, false, true, false⟩ :=
  ⟨by decide,
    (capability_partition ⟨true, false, true, false⟩).2.1 ("cbor") (by decide)⟩

/-- Configuration with only cbor and json enabled. -/
def cfgCbJs : Config := ⟨true, true, false, false⟩

/-- Codec instantiation whose json decoder accepts every input with result 7
and whose other codecs always fail, consistent with the opaque codec
contract. -/
def cOnlyJson7 : Codecs Nat :=
  ⟨fun _ => Except.error ("cbor"), fun _ => Except.ok 7,
   fun _ => Except.error ("yaml"), fun _ => Except.error ("toml"),
   fun _ => Except.error ("enc"), fun _ => Except.ok ("ab"),
   fun _ => Except.error ("enc"), fun _ => Except.error ("enc")⟩

/-- C1 counterexample: with cbor and json enabled, on the non-empty non-hex
input "zz" the json codec decodes successfully (to 7) and the cbor codec does
not succeed, yet `parse` does not return the first successful codec's result:
it terminates the process with exit code 1 from inside the cbor arm, so the
first codec whose decode succeeds does not determine the result. -/
theorem parse_order_counterexample :
    cfgCbJs.enabled FormatName.json = true ∧
    cOnlyJson7.jsonDec ("zz") = Except.ok 7 ∧
    (∀ bytes m, ¬ (hexDecode ("zz") = some bytes ∧
        cOnlyJson7.cborDec bytes = Except.ok m)) ∧
    Format.parse cfgCbJs cOnlyJson7 ("zz") = ParseOutcome.exit 1 ∧
    ParseOutcome.exit 1 ≠ ParseOutcome.ok (7 : Nat) := by
  refine ⟨rfl, rfl, ?_, by decide, by decide⟩
  intro bytes m h
  have hzz : hexDecode ("zz") = Option.none := by decide
  rw [hzz] at h
  exact Option.noConfusion h.1

/-- C1 amended: in every build configuration that compiles — the toml parse
arm at line 173 lacks the `?` and is ill-typed, so no compiling build enables
toml serialization and the codecs a build can enable are cbor, json and yaml
(see `Buildable`) — `parse` on a non-empty input tries the enabled codecs in
the fixed declared priority order cbor, json, yaml; the first codec whose
decode succeeds determines the result, no later codec is attempted (each
conclusion holds for arbitrary behavior of the later codecs, so an input
valid under two enabled codecs yields the earlier-declared codec's result) —
except that when cbor is enabled and the input is not valid hex, `parse`
terminates the process with exit code 1 from inside the cbor arm before any
later codec is tried. -/
theorem parse_order {M : Type} (cfg : Config) (c : Codecs M) (input : String)
    (hb : Buildable cfg) (hne : input ≠ "") :
    (cfg.cbor = true → hexDecode input = Option.none →
        Format.parse cfg c input = ParseOutcome.exit 1) ∧
    (∀ m, cfg.cbor = true → decOk c FormatName.cbor input m →
        Format.parse cfg c input = ParseOutcome.ok m) ∧
    (∀ m, cfg.json = true → decOk c FormatName.json input m →
        fallsThrough cfg c FormatName.cbor input →
        Format.parse cfg c input = ParseOutcome.ok m) ∧
    (∀ m, cfg.yaml = true → decOk c FormatName.yaml input m →
        fallsThrough cfg c FormatName.cbor input →
        fallsThrough cfg c FormatName.json input →
        Format.parse cfg c input = ParseOutcome.ok m) ∧
    cfg.enabled FormatName.toml = false :=
  ⟨fun hcb hhex => parse_exit_of_hex_fail hne hcb hhex,
    fun _ hcb hdec => parse_ok_cbor hne hcb hdec,
    fun _ hj hdec h1 => parse_ok_json hne hj hdec h1,
    fun _ hy hdec h1 h2 => parse_ok_yaml hne hy hdec h1 h2,
    hb⟩

/-- Configuration with only json enabled. -/
def cfgJsonOnly : Config := ⟨false, true, false, false⟩

/-- C1 witness: in a json-only build whose json codec accepts "ab" with
result 7, `parse "ab"` returns json's result. -/
theorem parse_order_witness :
    Format.parse cfgJsonOnly cOnlyJson7 ("ab") = ParseOutcome.ok 7 :=
  (parse_order cfgJsonOnly cOnlyJson7 ("ab") rfl (by decide)).2.2.1 7 rfl rfl
    (fun hcb => nomatch hcb)

/-- Configuration with only cbor enabled. -/
def cfgCbOnly : Config := ⟨true, false, false, false⟩

/-- Codec instantiation all of whose decoders and encoders fail. -/
def cAllFail : Codecs Nat :=
  ⟨fun _ => Except.error ("cbor"), fun _ => Except.error ("json"),
   fun _ => Except.error ("yaml"), fun _ => Except.error ("toml"),
   fun _ => Except.error ("enc"), fun _ => Except.error ("enc"),
   fun _ => Except.error ("enc"), fun _ => Except.error ("enc")⟩

/-- C2 counterexample: with cbor enabled, on the non-hex input "q" the cbor
decode attempt fails, yet the failure is not swallowed and `parse` does not
return `None` (nor any `Some`): the failure escapes `parse` as a process exit
with code 1. -/
theorem parse_swallow_counterexample :
    Format.parse cfgCbOnly cAllFail ("q") = ParseOutcome.exit 1 ∧
    ParseOutcome.exit 1 ≠ (ParseOutcome.none : ParseOutcome Nat) ∧
    (∀ m : Nat, ParseOutcome.exit 1 ≠ ParseOutcome.ok m) := by
  refine ⟨by decide, by decide, ?_⟩
  intro m h
  exact ParseOutcome.noConfusion h

/-- C2 amended: in every build configuration that compiles (no compiling
build enables toml serialization — its parse arm at line 173 lacks the `?`
and is ill-typed, so the codecs with a swallowed-failure path are cbor-after-
hex, json and yaml; see `Buildable`), for every non-empty input: when cbor is
enabled and the input is not valid hex, the cbor arm's hex failure is not
swallowed — `parse` exits the process with code 1; in every other situation
`parse` returns `Some` of the first successful decode or `None` exactly when
every enabled codec's decode attempt fails (in particular when no codec is
enabled), each individual decode failure being swallowed with no effect but
trying the next enabled codec, and the process is never exited. -/
theorem parse_none_iff {M : Type} (cfg : Config) (c : Codecs M)
    (input : String) (hb : Buildable cfg) (hne : input ≠ "") :
    (cfg.cbor = true → hexDecode input = Option.none →
        Format.parse cfg c input = ParseOutcome.exit 1) ∧
    ((cfg.cbor = true → (hexDecode input).isSome = true) →
      ((Format.parse cfg c input = ParseOutcome.none ↔
          (fallsThrough cfg c FormatName.cbor input ∧
           fallsThrough cfg c FormatName.json input ∧
           fallsThrough cfg c FormatName.yaml input)) ∧
        (∀ k, Format.parse cfg c input ≠ ParseOutcome.exit k))) ∧
    cfg.enabled FormatName.toml = false := by
  refine ⟨fun hcb hhex => parse_exit_of_hex_fail hne hcb hhex,
    fun hnoexit => ⟨⟨?_, ?_⟩, ?_⟩, hb⟩
  · exact fun hp => parse_none_to_fall hne hnoexit hp
  · exact fun h => parse_none_of_all_fall hne h.1 h.2.1 h.2.2
  · exact fun k => parse_no_exit hne hnoexit k

/-- C2 witness: in a cbor+json build whose codecs all fail on the hex input
"00", `parse` swallows both failures and returns `None`. -/
theorem parse_none_iff_witness :
    Format.parse cfgCbJs cAllFail ("00") = ParseOutcome.none := by
  refine ((((parse_none_iff cfgCbJs cAllFail ("00") rfl (by decide)).2.1
      (fun _ => by decide)).1).mpr) ⟨?_, ?_, ?_⟩
  · exact fun _ => ⟨[0], "cbor", by decide, rfl⟩
  · exact fun _ => ⟨"json", rfl⟩
  · intro hy
    exact nomatch hy

/-- Configuration with everything except toml enabled. -/
def cfgNoToml : Config := ⟨true, true, true, false⟩

set_option maxRecDepth 8192 in
/-- C5: for a disabled catalog name the emitted build-time action does not
enable the format in the toml case: the toml format is gated on the cargo
feature "toml-io" (third column of the `supported_formats!` table), while the
error from `from_str "toml"` interpolates `stringify!($name)` and so suggests
`cargo install tokei --features toml`; the message never mentions the actual
gating feature "toml-io", so the suggested command does not enable toml
support, contradicting both the claim and the message's own stated purpose. -/
theorem from_str_toml_feature_mismatch :
    fmtFeature FormatName.toml = "toml-io" ∧
    Format.from_str cfgNoToml ("toml") = Except.error (disabledMsg ("toml")) ∧
    strContains ("cargo install tokei --features toml\n")
        (disabledMsg ("toml")) = true ∧
    strContains (fmtFeature FormatName.toml) (disabledMsg ("toml")) = false :=
  ⟨rfl, rfl, by decide, by decide⟩

/-- C6: for every enabled variant and statistics map, `print` invokes exactly
the encoder arm matching that variant and returns that arm's result — the
cbor arm yields the hex rendering of the `to_cbor` bytes, the other arms
yield their encoder's output directly, and an encoder error is propagated
unchanged — and the result is unchanged when any non-matching encoder is
replaced.  `print` can never be reached with a disabled variant: every value
of the `Format` type carries the proof that its feature is enabled, because
disabled variants are absent from the type in that build. -/
theorem print_dispatch {M : Type} (cfg : Config) (f : Format cfg)
    (c c2 : Codecs M) (m : M) :
    cfg.enabled f.val = true ∧
    (f.val = FormatName.cbor →
      Format.print cfg c f m = (c.cborEnc m).map hexEncode ∧
      (∀ e, c.cborEnc m = Except.error e →
          Format.print cfg c f m = Except.error e) ∧
      (c2.cborEnc = c.cborEnc →
          Format.print cfg c2 f m = Format.print cfg c f m)) ∧
    (f.val = FormatName.json →
      Format.print cfg c f m = c.jsonEnc m ∧
      (c2.jsonEnc = c.jsonEnc →
          Format.print cfg c2 f m = Format.print cfg c f m)) ∧
    (f.val = FormatName.yaml →
      Format.print cfg c f m = c.yamlEnc m ∧
      (c2.yamlEnc = c.yamlEnc →
          Format.print cfg c2 f m = Format.print cfg c f m)) ∧
    (f.val = FormatName.toml →
      Format.print cfg c f m = c.tomlEnc m ∧
      (c2.tomlEnc = c.tomlEnc →
          Format.print cfg c2 f m = Format.print cfg c f m)) := by
  obtain ⟨v, hv⟩ := f
  refine ⟨hv, fun hfv => ?_, fun hfv => ?_, fun hfv => ?_, fun hfv => ?_⟩ <;>
    subst hfv
  · refine ⟨?_, ?_, ?_⟩
    · cases he : c.cborEnc m <;> simp [Format.print, he, Except.map]
    · intro e he
      simp [Format.print, he]
    · intro hee
      simp [Format.print, hee]
  · exact ⟨rfl, fun hee => by simp [Format.print, hee]⟩
  · exact ⟨rfl, fun hee => by simp [Format.print, hee]⟩
  · exact ⟨rfl, fun hee => by simp [Format.print, hee]⟩

/-- Configuration with every format enabled. -/
def cfgAll : Config := ⟨true, true, true, true⟩

/-- C6 witness: with every format enabled, printing via the json variant
returns exactly the json encoder's result. -/
theorem print_dispatch_witness :
    Format.print cfgAll cOnlyJson7 ⟨FormatName.json, rfl⟩ 3 =
      cOnlyJson7.jsonEnc 3 :=
  ((print_dispatch cfgAll ⟨FormatName.json, rfl⟩ cOnlyJson7 cOnlyJson7 3).2.2.1
    rfl).1

/-- Codec instantiation modelling a json codec that encodes the map 5 as the
(non-hex) two-character text consisting of braces and decodes that text back
to 5, alongside always-failing other codecs, consistent with the opaque codec
contract. -/
def cJsonRound : Codecs Nat :=
  ⟨fun _ => Except.error ("cbor"),
   fun s => if s = "\x7b\x7d" then Except.ok 5 else Except.error ("json"),
   fun _ => Except.error ("yaml"), fun _ => Except.error ("toml"),
   fun _ => Except.error ("enc"), fun _ => Except.ok ("\x7b\x7d"),
   fun _ => Except.error ("enc"), fun _ => Except.error ("enc")⟩

/-- C7 counterexample: with cbor and json enabled, printing the map 5 via the
json variant yields a brace-delimited string that the json codec decodes back
to 5, and the earlier-declared enabled cbor codec does not accept that string
(it is not even valid hex) — so the claim's proviso holds — yet parsing the
encoded string does not yield `Some 5`: the process exits with code 1 from
the cbor arm. -/
theorem roundtrip_counterexample :
    Format.print cfgCbJs cJsonRound ⟨FormatName.json, rfl⟩ 5 =
        Except.ok ("\x7b\x7d") ∧
    cJsonRound.jsonDec ("\x7b\x7d") = Except.ok 5 ∧
    (∀ bytes m, ¬ (hexDecode ("\x7b\x7d") = some bytes ∧
        cJsonRound.cborDec bytes = Except.ok m)) ∧
    Format.parse cfgCbJs cJsonRound ("\x7b\x7d") = ParseOutcome.exit 1 ∧
    ParseOutcome.exit 1 ≠ ParseOutcome.ok (5 : Nat) := by
  refine ⟨rfl, rfl, ?_, by decide, by decide⟩
  intro bytes m h
  have hbr : hexDecode ("\x7b\x7d") = Option.none := by decide
  rw [hbr] at h
  exact Option.noConfusion h.1

/-- C7 amended: in every build configuration that compiles, for every enabled
format F — necessarily cbor, json or yaml, since no compiling build enables
toml serialization (its parse arm at line 173 lacks the `?` and is ill-typed;
see `Buildable`) — and every map M, parsing the string produced by encoding M
under F yields `Some M`, provided the encoded string is non-empty, F's own
decoder recovers M from it, and every earlier-declared enabled format falls
through on it — which for an enabled cbor ahead of F requires the string to
be valid hex whose cbor decode fails; a hex-invalid string under an enabled
cbor would instead abort the process, even though cbor accepts no such
string.  When F is the only enabled format the fall-through condition holds
vacuously. -/
theorem roundtrip {M : Type} (cfg : Config) (c : Codecs M) (f : FormatName)
    (hb : Buildable cfg) (hf : cfg.enabled f = true) (m : M) (s : String)
    (henc : Format.print cfg c ⟨f, hf⟩ m = Except.ok s)
    (hne : s ≠ "")
    (hdec : decOk c f s m)
    (hearlier : ∀ g, fmtIdx g < fmtIdx f → fallsThrough cfg c g s) :
    Format.parse cfg c s = ParseOutcome.ok m := by
  cases f with
  | cbor => exact parse_ok_cbor hne hf hdec
  | json =>
    exact parse_ok_json hne hf hdec (hearlier FormatName.cbor (by decide))
  | yaml =>
    exact parse_ok_yaml hne hf hdec (hearlier FormatName.cbor (by decide))
      (hearlier FormatName.json (by decide))
  | toml =>
    exact absurd hf (by
      show ¬ cfg.toml = true
      rw [hb]
      exact Bool.noConfusion)

/-- C7 witness: in a json-only build, the json round-trip through `print` and
`parse` recovers the map 5. -/
theorem roundtrip_witness :
    Format.parse cfgJsonOnly cJsonRound ("\x7b\x7d") = ParseOutcome.ok 5 := by
  refine roundtrip cfgJsonOnly cJsonRound FormatName.json rfl rfl 5 ("\x7b\x7d")
    rfl (by decide) rfl ?_
  intro g hg
  cases g with
  | cbor =>
    intro hcb
    exact nomatch hcb
  | json => exact absurd hg (by decide)
  | yaml => exact absurd hg (by decide)
  | toml => exact absurd hg (by decide)

/-- Environment with no openable files and empty standard input. -/
def envNone : IoEnv := ⟨fun _ => Option.none, ""⟩

/-- Every buildable configuration has a nonempty disabled set: the toml
format can never be compiled in (see `Buildable`), so "toml" is always among
the not-supported names. -/
theorem not_supported_nonempty {cfg : Config} (hb : Buildable cfg) :
    (Format.not_supported cfg).isEmpty = false := by
  obtain ⟨b₁, b₂, b₃, b₄⟩ := cfg
  cases b₄ with
  | true => exact Bool.noConfusion hb
  | false => cases b₁ <;> cases b₂ <;> cases b₃ <;> decide

set_option maxRecDepth 16384 in
/-- C8 counterexample: in a cbor-only build (a configuration that compiles),
on the unopenable hex argument "00" whose cbor decode fails, `add_input`
receives `None` and emits the two diagnostics, but the disabled format names
are listed joined by comma-and-space ("json, yaml, toml"), not comma-joined
with no space: the claimed bare-comma listing line of the disabled names
never occurs in the diagnostic (the bare-comma join belongs to the full
catalog inside the suggested cargo command). -/
theorem add_input_diag_counterexample :
    add_input cfgCbOnly cAllFail envNone ("00") 0 (fun a b => a + b) =
      AddOutcome.exited 1 [errMsg ("00"), notSupportedMsg cfgCbOnly] ∧
    Format.not_supported cfgCbOnly = ["json", "yaml", "toml"] ∧
    strContains ("    json, yaml, toml\n") (notSupportedMsg cfgCbOnly) = true ∧
    strContains ("    json,yaml,toml") (notSupportedMsg cfgCbOnly) = false := by
  refine ⟨?_, by decide, by decide, by decide⟩
  unfold add_input convert_input
  have hfail : Format.parse cfgCbOnly cAllFail
      (resolveContents envNone ("00")) = ParseOutcome.none := by decide
  rw [hfail]
  rfl

/-- C8 amended: in every build configuration that compiles, whenever parse
fails with `None`, `add_input` prints the bare parse-failed message naming
its argument and then always also the diagnostic reporting the compiled-out
formats — the disabled set of a compiling build is never empty, since the
toml format can never be compiled in (see `Buildable`); that diagnostic lists
the disabled names joined with comma-and-space in catalog order, while the
bare-comma join with no space after the comma is used for the full catalog
(not the disabled set) inside the suggested cargo command. -/
theorem add_input_diag {M : Type} (cfg : Config) (c : Codecs M) (env : IoEnv)
    (input : String) (languages : M) (merge : M → M → M)
    (hb : Buildable cfg)
    (hfail : Format.parse cfg c (resolveContents env input) =
      ParseOutcome.none) :
    add_input cfg c env input languages merge =
      AddOutcome.exited 1 [errMsg input, notSupportedMsg cfg] ∧
    strContains (String.intercalate (", ") (Format.not_supported cfg))
        (notSupportedMsg cfg) = true ∧
    strContains ("cargo install tokei --features " ++
        debugStr (String.intercalate (",") Format.all))
        (notSupportedMsg cfg) = true := by
  refine ⟨?_, ?_, ?_⟩
  · unfold add_input convert_input
    rw [hfail, not_supported_nonempty hb]
    rfl
  · show segIn _ _ = true
    simp only [notSupportedMsg, strData_append, List.append_assoc]
    exact segIn_append _ _ _ (segIn_self _ _)
  · show segIn _ _ = true
    simp only [notSupportedMsg, strData_append, List.append_assoc]
    apply segIn_append
    apply segIn_append
    apply segIn_append
    apply segIn_append
    apply segIn_append
    exact segIn_self_assoc _ _ _

/-- C8 witness: in a json-only build, a failed parse of the unopenable inline
argument "q" prints the bare message followed by the compiled-out-formats
diagnostic. -/
theorem add_input_diag_witness :
    add_input cfgJsonOnly cAllFail envNone ("q") 0 (fun a b => a + b) =
      AddOutcome.exited 1 [errMsg ("q"), notSupportedMsg cfgJsonOnly] :=
  (add_input_diag cfgJsonOnly cAllFail envNone ("q") 0 (fun a b => a + b)
    rfl (by decide)).1

/-- C9: `add_input` resolves its string argument in a fixed order: a
successfully opened file wins and its contents become the parsed text; only
when opening fails does the literal argument "stdin" select standard input;
any other unopenable argument is itself the parsed text.  Consequently a real
openable file named "stdin" shadows standard input: the outcome is then
independent of what standard input holds. -/
theorem add_input_resolution {M : Type} (cfg : Config) (c : Codecs M)
    (env : IoEnv) (input : String) (languages : M) (merge : M → M → M) :
    (∀ s, env.fileContents input = some s → resolveContents env input = s) ∧
    (env.fileContents input = Option.none → input = "stdin" →
        resolveContents env input = env.stdin) ∧
    (env.fileContents input = Option.none → input ≠ "stdin" →
        resolveContents env input = input) ∧
    (∀ s, env.fileContents "stdin" = some s → ∀ other : String,
        add_input cfg c ⟨env.fileContents, other⟩ "stdin" languages merge =
          add_input cfg c env "stdin" languages merge) := by
  refine ⟨?_, ?_, ?_, ?_⟩
  · intro s hs
    simp [resolveContents, hs]
  · intro hn hstdin
    subst hstdin
    simp [resolveContents, hn]
  · intro hn hne
    simp [resolveContents, hn, hne]
  · intro s hs other
    simp [add_input, resolveContents, hs]

/-- Environment with a real openable file named "stdin". -/
def envShadow : IoEnv :=
  ⟨fun q => if q = "stdin" then some ("filedata") else Option.none,
   "stddata"⟩

/-- C9 witness: with a real file named "stdin" present, replacing the
contents of standard input does not change the outcome of
`add_input "stdin"`. -/
theorem add_input_resolution_witness :
    add_input cfgJsonOnly cAllFail ⟨envShadow.fileContents, "other"⟩ "stdin" 0
        (fun a b => a + b) =
      add_input cfgJsonOnly cAllFail envShadow "stdin" 0 (fun a b => a + b) :=
  (add_input_resolution cfgJsonOnly cAllFail envShadow "stdin" 0
    (fun a b => a + b)).2.2.2 ("filedata") rfl ("other")

/-- C10: both name-resolution failure kinds — the disabled-format
configuration error and the unknown-format error — are returned from
`from_str` as values of the same error type, a plain `String` carried by the
same `Except.error` constructor (`type Err = String` in the source), with no
distinguishing variant; only the message text differs, and it does always
differ (the two messages even end in different characters), so inspecting the
text is both necessary and sufficient to tell the two apart. -/
theorem from_str_error_type (cfg : Config) (f : FormatName) (s : String)
    (hdis : cfg.enabled f = false) (hcat : Format.all.contains s = false) :
    ∃ m₁ m₂ : String,
      Format.from_str cfg (fmtName f) = Except.error m₁ ∧
      Format.from_str cfg s = Except.error m₂ ∧
      m₁ = disabledMsg (fmtName f) ∧ m₂ = unknownMsg s ∧ m₁ ≠ m₂ := by
  have h1 : s ≠ "cbor" := fun h => by
    rw [h] at hcat
    exact Bool.noConfusion hcat
  have h2 : s ≠ "json" := fun h => by
    rw [h] at hcat
    exact Bool.noConfusion hcat
  have h3 : s ≠ "yaml" := fun h => by
    rw [h] at hcat
    exact Bool.noConfusion hcat
  have h4 : s ≠ "toml" := fun h => by
    rw [h] at hcat
    exact Bool.noConfusion hcat
  refine ⟨disabledMsg (fmtName f), unknownMsg s, ?_, ?_, rfl, rfl, ?_⟩
  · cases f <;> simp [Format.from_str, fmtName, hdis, Config.enabled] at hdis ⊢ <;>
      simp [hdis]
  · simp [Format.from_str, h1, h2, h3, h4]
  · intro heq
    have hlast : (disabledMsg (fmtName f)).data.getLast? =
        (unknownMsg s).data.getLast? := by rw [heq]
    have hd : (disabledMsg (fmtName f)).data.getLast? = some '\n' := by
      unfold disabledMsg
      rw [lastChar_append _ _ (by decide)]
      decide
    have hu : (unknownMsg s).data.getLast? = some 't' := by
      unfold unknownMsg
      rw [lastChar_append _ _ (by decide)]
      decide
    rw [hd, hu] at hlast
    exact absurd (Option.some.inj hlast) (by decide)

/-- C10 witness: in a json-only build, the disabled name "toml" and the
unknown name "xml" both fail with a plain string error, and the two message
texts differ. -/
theorem from_str_error_type_witness :
    ∃ m₁ m₂ : String,
      Format.from_str cfgJsonOnly (fmtName FormatName.toml) =
          Except.error m₁ ∧
      Format.from_str cfgJsonOnly "xml" = Except.error m₂ ∧
      m₁ = disabledMsg (fmtName FormatName.toml) ∧ m₂ = unknownMsg "xml" ∧
      m₁ ≠ m₂ :=
  from_str_error_type cfgJsonOnly FormatName.toml "xml" rfl (by decide)
